import Mathlib

/-!
# Verification of the HotStuff consensus transport

Shallow embedding of `core/consensus/hotstuff/transport.go`: the `transport`
struct with its operations `Broadcast`, `SendTo`, `ReceiveCh` and
`P2PHandler`.  The buffered channel `recvCh` is modelled as a list of
messages together with its fixed capacity; interaction with the outside
world (results of `p2p.Sender.SendAsync`, the context's cancellation
signal) is captured by an environment oracle, and each operation returns,
besides its Go return value, the updated transport state and a trace of
observable events (wire encodings computed, loopback enqueues, network
send attempts).  A blocked channel send that never observes cancellation
makes the Go goroutine hang forever; this is modelled by the operations
returning `none`.
-/

/-- A libp2p network identity (`peer.ID`), abstracted to a number. -/
abbrev PeerID := Nat

/-- A `p2p.Peer`; the transport only reads its network identity `ID`. -/
structure Peer where
  ID : PeerID
deriving DecidableEq, Repr

/-- Modelled from the spec: `hs.Msg`, the consensus engine's in-memory
message, is opaque to the transport; the spec describes it as a record of
logical fields losslessly convertible to and from the wire format. -/
structure Msg where
  fields : List Nat
deriving DecidableEq, Repr

/-- Modelled from the spec: `pbv1.HotStuffMsg`, the transmissible (wire)
representation of a `Msg`. -/
structure HotStuffMsg where
  fields : List Nat
deriving DecidableEq, Repr

/-- Modelled from the spec: `hs.Msg.ToProto`, the lossless Message-to-wire
encoding used by `Broadcast` and `SendTo`; its concrete body lives outside
this module. -/
def Msg.ToProto (m : Msg) : HotStuffMsg :=
  ⟨m.fields⟩

/-- Modelled from the spec: `hs.ProtoToMsg`, the lossless wire-to-Message
decoding used by `P2PHandler`; its concrete body lives outside this
module. -/
def ProtoToMsg (p : HotStuffMsg) : Msg :=
  ⟨p.fields⟩

/-- The error text of the range check in `SendTo`. -/
def invalidPeerIDText : String := "invalid peer ID"

/-- The context text wrapped around a failing network send. -/
def sendFailText : String := "failed to send message"

/-- The rejection text of `P2PHandler` for an invalid payload. -/
def invalidMsgText : String := "received invalid HotStuff consensus message"

/-- Go `error` values the transport creates or propagates. -/
inductive Err where
  /-- The cancellation error of the context, `ctx.Err()`. -/
  | canceled : Err
  /-- An error returned by `p2p.Sender.SendAsync`, identified by a code. -/
  | network (code : Nat) : Err
  /-- A wrapped error, `errors.Wrap(e, msg)`. -/
  | wrap (msg : String) (e : Err) : Err
  /-- A fresh error, `errors.New(msg)`. -/
  | new (msg : String) : Err
deriving DecidableEq, Repr

/-- The environment oracle for one transport operation: the outcome of the
`SendAsync` call issued while visiting peer index `i` (`none` = the network
host accepted the send), and whether the context's cancellation signal
fires while an enqueue is blocked on a full channel. -/
structure Env where
  sendResult : Nat → Option Err
  ctxDone : Bool

/-- Observable events of one transport operation, in program order. -/
inductive Event where
  /-- A call to `msg.ToProto()` producing the wire encoding. -/
  | encode (p : HotStuffMsg) : Event
  /-- A message enqueued onto `recvCh` by the loopback branch. -/
  | loopback (m : Msg) : Event
  /-- A `SendAsync` attempt to the peer with network identity `pid`. -/
  | sendAsync (pid : PeerID) (p : HotStuffMsg) : Event
deriving DecidableEq, Repr

def Event.isEncode : Event → Bool
  | .encode _ => true
  | _ => false

def Event.isLoopback : Event → Bool
  | .loopback _ => true
  | _ => false

def Event.isSendAsync : Event → Bool
  | .sendAsync _ _ => true
  | _ => false

/-- The `transport` struct: the local host's network identity
(`t.tcpNode.ID()`), the peer directory `t.peers`, and the buffered channel
`t.recvCh` modelled by its current contents and its fixed capacity. -/
structure Transport where
  tcpNodeID : PeerID
  peers : List Peer
  recvCh : List Msg
  recvChCap : Nat
deriving DecidableEq, Repr

/-- The buffer size `msgBufferSize` of `recvCh`. -/
def msgBufferSize : Nat := 16

/-- The constructor `newTransport`: the channel is created once, empty, with capacity
`msgBufferSize`. -/
def newTransport (tcpNodeID : PeerID) (peers : List Peer) : Transport :=
  { tcpNodeID := tcpNodeID, peers := peers, recvCh := [], recvChCap := msgBufferSize }

/-- Outcome of `select { case recvCh <- msg: ... case <-ctx.Done(): ... }`. -/
inductive ChanRes where
  /-- The enqueue succeeded; `q` is the new channel contents. -/
  | ok (q : List Msg) : ChanRes
  /-- The channel was full and the cancellation signal fired. -/
  | canceled : ChanRes
  /-- The channel was full and cancellation never fires: the goroutine
  blocks forever. -/
  | blocked : ChanRes
deriving DecidableEq, Repr

/-- The blocking channel send with cancellation, shared verbatim by the
loopback branches of `Broadcast` and `SendTo` and by `P2PHandler`. -/
def chanSend (cap : Nat) (q : List Msg) (m : Msg) (ctxDone : Bool) : ChanRes :=
  if q.length < cap then .ok (q ++ [m])
  else if ctxDone then .canceled
  else .blocked

/-- The per-peer event of a clean `Broadcast` iteration. -/
def peerEvent (tid : PeerID) (m : Msg) (pm : HotStuffMsg) (p : Peer) : Event :=
  if tid = p.ID then .loopback m else .sendAsync p.ID pm

/-- The `for _, peer := range t.peers` loop of `Broadcast`, visiting the
peers in directory order with their index, threading the channel contents
and recording events.  Returns `none` when a loopback enqueue blocks
forever. -/
def broadcastLoop (tid : PeerID) (cap : Nat) (pm : HotStuffMsg) (m : Msg)
    (env : Env) :
    List Peer → Nat → List Msg →
    Option (Except Err Unit × List Msg × List Event)
  | [], _, q => some (.ok (), q, [])
  | p :: rest, i, q =>
    if tid = p.ID then
      match chanSend cap q m env.ctxDone with
      | .ok q1 =>
        (broadcastLoop tid cap pm m env rest (i + 1) q1).map
          fun r => (r.1, r.2.1, .loopback m :: r.2.2)
      | .canceled => some (.error .canceled, q, [])
      | .blocked => none
    else
      match env.sendResult i with
      | none =>
        (broadcastLoop tid cap pm m env rest (i + 1) q).map
          fun r => (r.1, r.2.1, .sendAsync p.ID pm :: r.2.2)
      | some e =>
        some (.error (.wrap sendFailText e), q,
          [.sendAsync p.ID pm])

/-- The method `transport.Broadcast`: computes the wire encoding once up front, then
runs the fan-out loop. -/
def Transport.Broadcast (t : Transport) (env : Env) (msg : Msg) :
    Option (Except Err Unit × Transport × List Event) :=
  let protoMsg := msg.ToProto
  (broadcastLoop t.tcpNodeID t.recvChCap protoMsg msg env t.peers 0
      t.recvCh).map
    fun r => (r.1, { t with recvCh := r.2.1 }, .encode protoMsg :: r.2.2)

/-- The method `transport.SendTo`: range-checks the consensus ID, resolves the peer at
index `id - 1`, then either loops back locally or encodes and sends. -/
def Transport.SendTo (t : Transport) (env : Env) (id : Int) (msg : Msg) :
    Option (Except Err Unit × Transport × List Event) :=
  if id < 1 ∨ (t.peers.length : Int) < id then
    some (.error (.new invalidPeerIDText), t, [])
  else
    let p := (t.peers[(id - 1).toNat]?).getD ⟨0⟩
    if t.tcpNodeID = p.ID then
      match chanSend t.recvChCap t.recvCh msg env.ctxDone with
      | .ok q1 => some (.ok (), { t with recvCh := q1 }, [.loopback msg])
      | .canceled => some (.error .canceled, t, [])
      | .blocked => none
    else
      let protoMsg := msg.ToProto
      match env.sendResult 0 with
      | none =>
        some (.ok (), t, [.encode protoMsg, .sendAsync p.ID protoMsg])
      | some e =>
        some (.error (.wrap sendFailText e), t,
          [.encode protoMsg, .sendAsync p.ID protoMsg])

/-- The method `transport.ReceiveCh`: the read handle on the one channel. -/
def Transport.ReceiveCh (t : Transport) : List Msg :=
  t.recvCh

/-- The inbound `proto.Message` value handed to `P2PHandler`: either a
`*pbv1.HotStuffMsg` pointer (possibly nil), or a value of some other
concrete kind (including a nil interface), for which the type assertion
fails. -/
inductive P2PReq where
  | hotStuffMsg (m : Option HotStuffMsg) : P2PReq
  | otherKind : P2PReq
deriving DecidableEq, Repr

/-- The `(proto.Message, bool, error)` triple `P2PHandler` returns. -/
structure HandlerResult where
  resp : Option HotStuffMsg
  stream : Bool
  err : Option Err
deriving DecidableEq, Repr

/-- The fire-and-forget result shape `(nil, false, err)` of `P2PHandler`. -/
def handlerRes (e : Option Err) : HandlerResult :=
  { resp := none, stream := false, err := e }

/-- The method `transport.P2PHandler`: validates the concrete kind of the payload,
decodes it and enqueues onto `recvCh` under the same blocking/cancellation
discipline as the loopback branches.  Returns `none` when the enqueue
blocks forever. -/
def Transport.P2PHandler (t : Transport) (env : Env) (req : P2PReq) :
    Option (HandlerResult × Transport) :=
  match req with
  | .otherKind =>
    some (handlerRes (some (.new invalidMsgText)), t)
  | .hotStuffMsg none =>
    some (handlerRes (some (.new invalidMsgText)), t)
  | .hotStuffMsg (some pbMsg) =>
    match chanSend t.recvChCap t.recvCh (ProtoToMsg pbMsg) env.ctxDone with
    | .ok q1 => some (handlerRes none, { t with recvCh := q1 })
    | .canceled => some (handlerRes (some .canceled), t)
    | .blocked => none

/-- Number of occurrences of the local host's network identity in a peer
list, i.e. the number of loopback deliveries a clean fan-out performs. -/
def locals (tid : PeerID) (ps : List Peer) : Nat :=
  (ps.filter fun p => tid = p.ID).length

theorem locals_nil (tid : PeerID) : locals tid [] = 0 :=
  rfl

theorem locals_cons (tid : PeerID) (p : Peer) (l : List Peer) :
    locals tid (p :: l) = (if tid = p.ID then 1 else 0) + locals tid l := by
  by_cases h : tid = p.ID <;> simp [locals, h, Nat.add_comm]

/-- Running the fan-out loop over a prefix of `k` peers that all succeed
(each is either the local participant with room in the channel, or a remote
peer whose send is accepted) appends one event per visited peer, enqueues
one copy of `m` per local occurrence, and continues with the remaining
peers. -/
theorem broadcastLoop_cleanRun (tid : PeerID) (cap : Nat)
    (pm : HotStuffMsg) (m : Msg) (env : Env) :
    ∀ (k : Nat) (ps : List Peer) (i : Nat) (q : List Msg),
      (∀ j, j < k → ∀ pj, ps[j]? = some pj →
        tid = pj.ID ∨ env.sendResult (i + j) = none) →
      q.length + locals tid (ps.take k) ≤ cap →
      broadcastLoop tid cap pm m env ps i q =
        (broadcastLoop tid cap pm m env (ps.drop k) (i + k)
            (q ++ List.replicate (locals tid (ps.take k)) m)).map
          (fun r => (r.1, r.2.1, (ps.take k).map (peerEvent tid m pm) ++ r.2.2)) := by
  intro k
  induction k with
  | zero =>
    intro ps i q _ _
    simp [locals]
  | succ k ih =>
    intro ps i q hclean hspace
    match ps with
    | [] => simp [broadcastLoop, locals]
    | p :: rest =>
      by_cases hp : tid = p.ID
      · have hlen : q.length < cap := by
          simp [locals_cons, hp] at hspace
          omega
        have hcs : chanSend cap q m env.ctxDone = .ok (q ++ [m]) := by
          simp [chanSend, hlen]
        have hclean1 : ∀ j, j < k → ∀ pj, rest[j]? = some pj →
            tid = pj.ID ∨ env.sendResult (i + 1 + j) = none := by
          intro j hj pj hpj
          have h2 := hclean (j + 1) (by omega) pj (by simpa using hpj)
          rcases h2 with h2 | h2
          · exact Or.inl h2
          · refine Or.inr ?_
            have : i + (j + 1) = i + 1 + j := by omega
            rwa [this] at h2
        have hspace1 : (q ++ [m]).length + locals tid (rest.take k) ≤ cap := by
          simp [locals_cons, hp] at hspace ⊢
          omega
        have ihr := ih rest (i + 1) (q ++ [m]) hclean1 hspace1
        simp only [broadcastLoop, if_pos hp, hcs]
        rw [ihr]
        have e1 : i + (k + 1) = i + 1 + k := by omega
        have e2 : locals tid (List.take (k + 1) (p :: rest))
            = locals tid (List.take k rest) + 1 := by
          simp [locals_cons, hp, Nat.add_comm]
        rw [e1, e2]
        have e3 : q ++ List.replicate (locals tid (List.take k rest) + 1) m
            = q ++ [m] ++ List.replicate (locals tid (List.take k rest)) m := by
          simp [List.replicate_succ]
        rw [e3]
        simp only [List.drop_succ_cons, List.take_succ_cons, List.map_cons]
        cases broadcastLoop tid cap pm m env (List.drop k rest) (i + 1 + k)
            (q ++ [m] ++ List.replicate (locals tid (List.take k rest)) m) with
        | none => rfl
        | some r => simp [peerEvent, hp]
      · have hsend0 : env.sendResult i = none := by
          have h2 := hclean 0 (by omega) p (by simp)
          rcases h2 with h2 | h2
          · exact absurd h2 hp
          · simpa using h2
        have hclean1 : ∀ j, j < k → ∀ pj, rest[j]? = some pj →
            tid = pj.ID ∨ env.sendResult (i + 1 + j) = none := by
          intro j hj pj hpj
          have h2 := hclean (j + 1) (by omega) pj (by simpa using hpj)
          rcases h2 with h2 | h2
          · exact Or.inl h2
          · refine Or.inr ?_
            have : i + (j + 1) = i + 1 + j := by omega
            rwa [this] at h2
        have hspace1 : q.length + locals tid (rest.take k) ≤ cap := by
          simp [locals_cons, hp] at hspace
          omega
        have ihr := ih rest (i + 1) q hclean1 hspace1
        simp only [broadcastLoop, if_neg hp, hsend0]
        rw [ihr]
        have e1 : i + (k + 1) = i + 1 + k := by omega
        have e2 : locals tid (List.take (k + 1) (p :: rest))
            = locals tid (List.take k rest) := by
          simp [locals_cons, hp]
        rw [e1, e2]
        simp only [List.drop_succ_cons, List.take_succ_cons, List.map_cons]
        cases broadcastLoop tid cap pm m env (List.drop k rest) (i + 1 + k)
            (q ++ List.replicate (locals tid (List.take k rest)) m) with
        | none => rfl
        | some r => simp [peerEvent, hp]

/-- A fully clean fan-out: every peer is either local with room in the
channel or remote with an accepted send.  The loop succeeds, enqueues one
copy of `m` per local occurrence and records one event per peer in
directory order. -/
theorem broadcastLoop_success (tid : PeerID) (cap : Nat) (pm : HotStuffMsg)
    (m : Msg) (env : Env) (ps : List Peer) (i : Nat) (q : List Msg)
    (hclean : ∀ j, ∀ pj, ps[j]? = some pj →
      tid = pj.ID ∨ env.sendResult (i + j) = none)
    (hspace : q.length + locals tid ps ≤ cap) :
    broadcastLoop tid cap pm m env ps i q =
      some (.ok (), q ++ List.replicate (locals tid ps) m,
        ps.map (peerEvent tid m pm)) := by
  have h := broadcastLoop_cleanRun tid cap pm m env ps.length ps i q
    (fun j _ pj hpj => hclean j pj hpj) (by simpa using hspace)
  simpa [broadcastLoop] using h

/-- The loopback events of a clean fan-out, one per local occurrence. -/
theorem peerEvents_filter_loopback (tid : PeerID) (m : Msg)
    (pm : HotStuffMsg) (ps : List Peer) :
    (ps.map (peerEvent tid m pm)).filter Event.isLoopback
      = (ps.filter fun p => tid = p.ID).map fun _ => Event.loopback m := by
  induction ps with
  | nil => rfl
  | cons p l ih =>
    by_cases h : tid = p.ID
    · subst h
      simp [peerEvent, Event.isLoopback, ih]
    · simp [peerEvent, h, Event.isLoopback, ih]

/-- The network-send events of a clean fan-out, one per remote peer, in
directory order, all carrying the same encoded payload. -/
theorem peerEvents_filter_sendAsync (tid : PeerID) (m : Msg)
    (pm : HotStuffMsg) (ps : List Peer) :
    (ps.map (peerEvent tid m pm)).filter Event.isSendAsync
      = (ps.filter fun p => ¬ tid = p.ID).map
          fun p => Event.sendAsync p.ID pm := by
  induction ps with
  | nil => rfl
  | cons p l ih =>
    by_cases h : tid = p.ID
    · subst h
      simp [peerEvent, Event.isSendAsync, ih]
    · simp [peerEvent, h, Event.isSendAsync, ih]

/-- A clean fan-out records no encoding event: the encoding happens once,
outside the loop. -/
theorem peerEvents_filter_encode (tid : PeerID) (m : Msg)
    (pm : HotStuffMsg) (ps : List Peer) :
    (ps.map (peerEvent tid m pm)).filter Event.isEncode = [] := by
  induction ps with
  | nil => rfl
  | cons p l ih =>
    have hpe : Event.isEncode (peerEvent tid m pm p) = false := by
      by_cases h : tid = p.ID <;> simp [peerEvent, h, Event.isEncode]
    simp [hpe, ih]

/-- Local and remote occurrences partition the peer directory. -/
theorem locals_add_remotes (tid : PeerID) (ps : List Peer) :
    locals tid ps + (ps.filter fun p => ¬ tid = p.ID).length = ps.length := by
  have h := List.length_eq_length_filter_add (l := ps) (fun p => decide (tid = p.ID))
  simp only [locals]
  simp only [decide_not] at h ⊢
  omega

/-- A prefix made of remote peers only contains no local occurrence. -/
theorem locals_take_eq_zero (tid : PeerID) : ∀ (k : Nat) (ps : List Peer),
    (∀ j, j < k → ∀ pj, ps[j]? = some pj → ¬ tid = pj.ID) →
    locals tid (ps.take k) = 0 := by
  intro k
  induction k with
  | zero => intro ps _; rfl
  | succ k ih =>
    intro ps h
    match ps with
    | [] => rfl
    | p :: rest =>
      have h0 : ¬ tid = p.ID := h 0 (by omega) p (by simp)
      have h1 := ih rest (fun j hj pj hpj => h (j + 1) (by omega) pj (by simpa using hpj))
      simp [locals_cons, h0, h1]

/-- The spec's concrete scenario: a 4-participant directory with local
identity at position 2. -/
def exPeers4 : List Peer := [⟨1⟩, ⟨2⟩, ⟨3⟩, ⟨4⟩]

def exT : Transport :=
  { tcpNodeID := 2, peers := exPeers4, recvCh := [], recvChCap := 16 }

/-- Every network send is accepted and cancellation never fires. -/
def exEnvOK : Env := { sendResult := fun _ => none, ctxDone := false }

def exM : Msg := ⟨[5, 9]⟩

/-- Claim C8: decoding the wire encoding of any message yields the message
back; the codec used by `Broadcast`/`SendTo` and `P2PHandler` round-trips
losslessly. -/
theorem C8_codec_roundtrip (m : Msg) : ProtoToMsg m.ToProto = m :=
  rfl

/-- Claim C3: an out-of-range destination ID makes `SendTo` return the
distinct "invalid peer ID" error immediately, with the transport — hence
the inbound queue — unchanged and no loopback or network event. -/
theorem C3_sendTo_range_validation (t : Transport) (env : Env) (id : Int)
    (m : Msg) (h : id < 1 ∨ (t.peers.length : Int) < id) :
    t.SendTo env id m = some (.error (.new invalidPeerIDText), t, []) := by
  unfold Transport.SendTo
  rw [if_pos h]

theorem C3_witness :
    exT.SendTo exEnvOK 0 exM =
      some (.error (.new invalidPeerIDText), exT, []) :=
  C3_sendTo_range_validation exT exEnvOK 0 exM (Or.inl (by decide))

/-- Claim C1: when the directory contains the local participant exactly once
and nothing fails, `Broadcast` records exactly one encoding event, one
network send per remote peer — in directory order, each carrying that same
encoded payload — and exactly one loopback enqueue of the message itself. -/
theorem C1_broadcast_encode_once_fanout (t : Transport) (env : Env) (m : Msg)
    (hloc : locals t.tcpNodeID t.peers = 1)
    (hsend : ∀ j, env.sendResult j = none)
    (hspace : t.recvCh.length < t.recvChCap) :
    ∃ evs,
      t.Broadcast env m =
        some (.ok (), { t with recvCh := t.recvCh ++ [m] }, evs) ∧
      evs = .encode m.ToProto ::
        t.peers.map (peerEvent t.tcpNodeID m m.ToProto) ∧
      (evs.filter Event.isEncode).length = 1 ∧
      evs.filter Event.isSendAsync =
        (t.peers.filter fun p => ¬ t.tcpNodeID = p.ID).map
          (fun p => Event.sendAsync p.ID m.ToProto) ∧
      (evs.filter Event.isSendAsync).length = t.peers.length - 1 ∧
      (evs.filter Event.isLoopback).length = 1 := by
  have hrun := broadcastLoop_success t.tcpNodeID t.recvChCap m.ToProto m env
    t.peers 0 t.recvCh
    (fun j pj _ => Or.inr (hsend (0 + j)))
    (by rw [hloc]; omega)
  refine ⟨.encode m.ToProto :: t.peers.map (peerEvent t.tcpNodeID m m.ToProto),
    ?_, rfl, ?_, ?_, ?_, ?_⟩
  · unfold Transport.Broadcast
    simp only [hrun, hloc, Option.map_some']
    rfl
  · simp [Event.isEncode, peerEvents_filter_encode]
  · simp [Event.isSendAsync, peerEvents_filter_sendAsync]
  · have hcount := locals_add_remotes t.tcpNodeID t.peers
    simp only [decide_not] at hcount
    rw [hloc] at hcount
    simp [Event.isSendAsync, peerEvents_filter_sendAsync]
    omega
  · simp [Event.isLoopback, peerEvents_filter_loopback, locals] at hloc ⊢
    omega

theorem C1_witness :
    ∃ evs,
      exT.Broadcast exEnvOK exM =
        some (.ok (), { exT with recvCh := exT.recvCh ++ [exM] }, evs) ∧
      evs = .encode exM.ToProto ::
        exT.peers.map (peerEvent exT.tcpNodeID exM exM.ToProto) ∧
      (evs.filter Event.isEncode).length = 1 ∧
      evs.filter Event.isSendAsync =
        (exT.peers.filter fun p => ¬ exT.tcpNodeID = p.ID).map
          (fun p => Event.sendAsync p.ID exM.ToProto) ∧
      (evs.filter Event.isSendAsync).length = exT.peers.length - 1 ∧
      (evs.filter Event.isLoopback).length = 1 :=
  C1_broadcast_encode_once_fanout exT exEnvOK exM (by decide) (fun _ => rfl)
    (by decide)

/-- Claim C10: whether a destination is local is decided solely by equality
of network identities: a fully successful `Broadcast` performs exactly one
loopback enqueue per occurrence of the local host's network identity in
the directory and one network send to every remaining peer; with zero
occurrences there is no loopback and every peer in the directory is sent
to. -/
theorem C10_locality_by_network_identity (t : Transport) (env : Env) (m : Msg)
    (hsend : ∀ j, env.sendResult j = none)
    (hspace : t.recvCh.length + locals t.tcpNodeID t.peers ≤ t.recvChCap) :
    ∃ evs,
      t.Broadcast env m =
        some (.ok (),
          { t with recvCh :=
              t.recvCh ++ List.replicate (locals t.tcpNodeID t.peers) m },
          evs) ∧
      (evs.filter Event.isLoopback).length = locals t.tcpNodeID t.peers ∧
      (evs.filter Event.isSendAsync).length
        = t.peers.length - locals t.tcpNodeID t.peers ∧
      (locals t.tcpNodeID t.peers = 0 →
        evs.filter Event.isLoopback = [] ∧
        (evs.filter Event.isSendAsync).length = t.peers.length) := by
  have hrun := broadcastLoop_success t.tcpNodeID t.recvChCap m.ToProto m env
    t.peers 0 t.recvCh
    (fun j pj _ => Or.inr (hsend (0 + j)))
    hspace
  have hcount := locals_add_remotes t.tcpNodeID t.peers
  simp only [decide_not] at hcount
  refine ⟨.encode m.ToProto :: t.peers.map (peerEvent t.tcpNodeID m m.ToProto),
    ?_, ?_, ?_, ?_⟩
  · unfold Transport.Broadcast
    simp only [hrun, Option.map_some']
  · simp [Event.isLoopback, peerEvents_filter_loopback, locals]
  · simp [Event.isSendAsync, peerEvents_filter_sendAsync]
    omega
  · intro h0
    constructor
    · have hnil : (t.peers.filter fun p => t.tcpNodeID = p.ID) = [] :=
        List.length_eq_zero.mp (by simpa [locals] using h0)
      simp [Event.isLoopback, peerEvents_filter_loopback, hnil]
    · have h2 := hcount
      simp [Event.isSendAsync, peerEvents_filter_sendAsync, h0] at h2 ⊢
      exact h2

def exPeersDup : List Peer := [⟨5⟩, ⟨3⟩, ⟨5⟩]

def exTDup : Transport :=
  { tcpNodeID := 5, peers := exPeersDup, recvCh := [], recvChCap := 16 }

theorem C10_witness :
    ∃ evs,
      exTDup.Broadcast exEnvOK exM =
        some (.ok (),
          { exTDup with recvCh :=
              exTDup.recvCh
                ++ List.replicate (locals exTDup.tcpNodeID exTDup.peers) exM },
          evs) ∧
      (evs.filter Event.isLoopback).length
        = locals exTDup.tcpNodeID exTDup.peers ∧
      (evs.filter Event.isSendAsync).length
        = exTDup.peers.length - locals exTDup.tcpNodeID exTDup.peers ∧
      (locals exTDup.tcpNodeID exTDup.peers = 0 →
        evs.filter Event.isLoopback = [] ∧
        (evs.filter Event.isSendAsync).length = exTDup.peers.length) :=
  C10_locality_by_network_identity exTDup exEnvOK exM (fun _ => rfl) (by decide)

/-- Claim C2: a locally-addressed delivery enqueues the message itself onto
the inbound queue with no network-host interaction: `SendTo` to the local
participant performs exactly the loopback enqueue (no encode, no send
event), a `Broadcast` over that single local peer performs the identical
enqueue with the identical queue result (its up-front encoding aside), and
reading the channel afterwards yields exactly that one message. -/
theorem C2_loopback_correct (t : Transport) (env : Env) (id : Int) (m : Msg)
    (p : Peer)
    (hlow : 1 ≤ id) (hhigh : id ≤ (t.peers.length : Int))
    (hget : t.peers[(id - 1).toNat]? = some p)
    (hlocal : t.tcpNodeID = p.ID)
    (hempty : t.recvCh = []) (hcap : 0 < t.recvChCap) :
    t.SendTo env id m = some (.ok (), { t with recvCh := [m] }, [.loopback m]) ∧
    ({ t with peers := [p] } : Transport).Broadcast env m
      = some (.ok (), { t with peers := [p], recvCh := [m] },
          [.encode m.ToProto, .loopback m]) ∧
    ({ t with recvCh := [m] } : Transport).ReceiveCh = [m] := by
  have hne : ¬ (id < 1 ∨ (t.peers.length : Int) < id) := by omega
  have hcs : chanSend t.recvChCap t.recvCh m env.ctxDone = .ok [m] := by
    simp [chanSend, hempty, hcap]
  refine ⟨?_, ?_, rfl⟩
  · unfold Transport.SendTo
    rw [if_neg hne, hget]
    simp only [Option.getD_some]
    rw [if_pos hlocal, hcs]
  · unfold Transport.Broadcast
    simp only [broadcastLoop, hlocal, if_pos rfl]
    rw [show ({ t with peers := [p] } : Transport).recvChCap = t.recvChCap from rfl,
      show ({ t with peers := [p] } : Transport).recvCh = t.recvCh from rfl, hcs]
    rfl

theorem C2_witness :
    exT.SendTo exEnvOK 2 exM
      = some (.ok (), { exT with recvCh := [exM] }, [.loopback exM]) ∧
    ({ exT with peers := [(⟨2⟩ : Peer)] } : Transport).Broadcast exEnvOK exM
      = some (.ok (), { exT with peers := [(⟨2⟩ : Peer)], recvCh := [exM] },
          [.encode exM.ToProto, .loopback exM]) ∧
    ({ exT with recvCh := [exM] } : Transport).ReceiveCh = [exM] :=
  C2_loopback_correct exT exEnvOK 2 exM ⟨2⟩ (by decide) (by decide) (by decide)
    (by decide) rfl (by decide)

/-- The peer directory at a failing position: the directory decomposes into
the clean prefix, the failing peer, and the never-visited suffix. -/
theorem drop_eq_cons_of_getElem (ps : List Peer) (k : Nat) (p : Peer)
    (h : ps[k]? = some p) : ps.drop k = p :: ps.drop (k + 1) := by
  rcases List.getElem?_eq_some.mp h with ⟨hlt, he⟩
  rw [List.drop_eq_getElem_cons hlt]
  simp [he]

/-- Claim C4: a failing network send aborts the fan-out: `Broadcast` returns
the send error wrapped with "failed to send message", records events only
for the peers up to and including the failing one — nothing after position
`k`, no retry — and `SendTo`'s remote branch wraps identically. -/
theorem C4_failfast_wrap (t : Transport) (env : Env) (m : Msg) (k : Nat)
    (p : Peer) (e : Err)
    (hget : t.peers[k]? = some p) (hremote : ¬ t.tcpNodeID = p.ID)
    (hfail : env.sendResult k = some e)
    (hclean : ∀ j, j < k → ∀ pj, t.peers[j]? = some pj →
      t.tcpNodeID = pj.ID ∨ env.sendResult j = none)
    (hspace : t.recvCh.length + locals t.tcpNodeID (t.peers.take k)
      ≤ t.recvChCap) :
    (t.Broadcast env m =
      some (.error (.wrap sendFailText e),
        { t with recvCh := t.recvCh
            ++ List.replicate (locals t.tcpNodeID (t.peers.take k)) m },
        .encode m.ToProto ::
          ((t.peers.take k).map (peerEvent t.tcpNodeID m m.ToProto)
            ++ [.sendAsync p.ID m.ToProto]))) ∧
    (∀ (id2 : Int) (p2 : Peer) (e2 : Err),
      1 ≤ id2 → id2 ≤ (t.peers.length : Int) →
      t.peers[(id2 - 1).toNat]? = some p2 → ¬ t.tcpNodeID = p2.ID →
      env.sendResult 0 = some e2 →
      t.SendTo env id2 m =
        some (.error (.wrap sendFailText e2), t,
          [.encode m.ToProto, .sendAsync p2.ID m.ToProto])) := by
  constructor
  · have hpre := broadcastLoop_cleanRun t.tcpNodeID t.recvChCap m.ToProto m
      env k t.peers 0 t.recvCh
      (fun j hj pj hpj => by simpa using hclean j hj pj hpj)
      hspace
    have hdrop := drop_eq_cons_of_getElem t.peers k p hget
    have hstep : broadcastLoop t.tcpNodeID t.recvChCap m.ToProto m env
        (t.peers.drop k) (0 + k)
        (t.recvCh ++ List.replicate (locals t.tcpNodeID (t.peers.take k)) m)
        = some (.error (.wrap sendFailText e),
            t.recvCh ++ List.replicate (locals t.tcpNodeID (t.peers.take k)) m,
            [.sendAsync p.ID m.ToProto]) := by
      rw [hdrop]
      simp only [broadcastLoop, if_neg hremote]
      rw [show (0 + k) = k by omega, hfail]
    unfold Transport.Broadcast
    simp only [hpre, hstep, Option.map_some']
  · intro id2 p2 e2 hlow hhigh hget2 hremote2 hfail2
    have hne : ¬ (id2 < 1 ∨ (t.peers.length : Int) < id2) := by omega
    unfold Transport.SendTo
    rw [if_neg hne, hget2]
    simp only [Option.getD_some]
    rw [if_neg hremote2, hfail2]

/-- The send to the peer at position 2 (participant 3) is rejected; all
other sends would succeed. -/
def exEnvFail3 : Env :=
  { sendResult := fun i => if i = 2 then some (.network 7) else none,
    ctxDone := false }

theorem C4_witness :
    exT.Broadcast exEnvFail3 exM =
      some (.error (.wrap sendFailText (.network 7)),
        { exT with recvCh := exT.recvCh
            ++ List.replicate (locals exT.tcpNodeID (exT.peers.take 2)) exM },
        .encode exM.ToProto ::
          ((exT.peers.take 2).map (peerEvent exT.tcpNodeID exM exM.ToProto)
            ++ [.sendAsync (3 : PeerID) exM.ToProto])) :=
  (C4_failfast_wrap exT exEnvFail3 exM 2 ⟨3⟩ (.network 7) (by decide) (by decide)
    rfl
    (fun j hj pj _ => Or.inr (by interval_cases j <;> rfl))
    (by decide)).1

/-- Claim C5: a blocking enqueue onto a full inbound queue whose cancellation
signal fires returns the cancellation error with the queue contents
unchanged — no partial or duplicate insert: `chanSend` cancels, a
`Broadcast` reaching its local peer at position `k` stops right there (no
loopback event, no later peer) returning the cancellation error with the
transport unchanged, and `P2PHandler` rejects the same way. -/
theorem C5_cancellation_safety (t : Transport) (env : Env) (m : Msg) (k : Nat)
    (p : Peer) (pb : HotStuffMsg)
    (hfull : t.recvCh.length = t.recvChCap) (hdone : env.ctxDone = true)
    (hget : t.peers[k]? = some p) (hlocal : t.tcpNodeID = p.ID)
    (hclean : ∀ j, j < k → ∀ pj, t.peers[j]? = some pj →
      ¬ t.tcpNodeID = pj.ID ∧ env.sendResult j = none) :
    chanSend t.recvChCap t.recvCh m env.ctxDone = .canceled ∧
    t.Broadcast env m =
      some (.error .canceled, t,
        .encode m.ToProto ::
          (t.peers.take k).map (peerEvent t.tcpNodeID m m.ToProto)) ∧
    t.P2PHandler env (.hotStuffMsg (some pb))
      = some (handlerRes (some .canceled), t) ∧
    t.ReceiveCh = t.recvCh := by
  have hz : locals t.tcpNodeID (t.peers.take k) = 0 :=
    locals_take_eq_zero t.tcpNodeID k t.peers
      (fun j hj pj hpj => (hclean j hj pj hpj).1)
  have hcs : chanSend t.recvChCap t.recvCh m env.ctxDone = .canceled := by
    simp [chanSend, hfull, hdone]
  refine ⟨hcs, ?_, ?_, rfl⟩
  · have hpre := broadcastLoop_cleanRun t.tcpNodeID t.recvChCap m.ToProto m
      env k t.peers 0 t.recvCh
      (fun j hj pj hpj => Or.inr (by simpa using (hclean j hj pj hpj).2))
      (by rw [hz]; omega)
    rw [hz] at hpre
    simp only [List.replicate_zero, List.append_nil] at hpre
    have hdrop := drop_eq_cons_of_getElem t.peers k p hget
    have hstep : broadcastLoop t.tcpNodeID t.recvChCap m.ToProto m env
        (t.peers.drop k) (0 + k) t.recvCh
        = some (.error .canceled, t.recvCh, []) := by
      rw [hdrop]
      simp only [broadcastLoop, if_pos hlocal, hcs]
    unfold Transport.Broadcast
    simp only [hpre, hstep, Option.map_some', List.append_nil]
  · have hcs2 : chanSend t.recvChCap t.recvCh (ProtoToMsg pb) env.ctxDone
        = .canceled := by
      simp [chanSend, hfull, hdone]
    unfold Transport.P2PHandler
    simp only [hcs2]

def exTFull : Transport :=
  { tcpNodeID := 2, peers := exPeers4, recvCh := List.replicate 16 exM,
    recvChCap := 16 }

/-- Sends would be accepted, but the cancellation signal has fired. -/
def exEnvCancel : Env := { sendResult := fun _ => none, ctxDone := true }

theorem C5_witness :
    chanSend exTFull.recvChCap exTFull.recvCh exM exEnvCancel.ctxDone
      = .canceled ∧
    exTFull.Broadcast exEnvCancel exM =
      some (.error .canceled, exTFull,
        .encode exM.ToProto ::
          (exTFull.peers.take 1).map
            (peerEvent exTFull.tcpNodeID exM exM.ToProto)) ∧
    exTFull.P2PHandler exEnvCancel (.hotStuffMsg (some exM.ToProto))
      = some (handlerRes (some .canceled), exTFull) ∧
    exTFull.ReceiveCh = exTFull.recvCh :=
  C5_cancellation_safety exTFull exEnvCancel exM 1 ⟨2⟩ exM.ToProto (by decide)
    rfl (by decide) (by decide)
    (fun j hj pj hpj => by
      interval_cases j
      have h2 : (some (⟨1⟩ : Peer)) = some pj := hpj
      injection h2 with h3
      subst h3
      exact ⟨by decide, rfl⟩)

/-- Every network send reports the context's cancellation error. -/
def exEnvCancelSend : Env :=
  { sendResult := fun _ => some .canceled, ctxDone := false }

/-- Claim C6 fails as stated on the code: here the network send observes
cancellation (`SendAsync` returns the context's cancellation error), yet
`Broadcast` surfaces it wrapped in "failed to send message" — not
verbatim, so this caller cannot distinguish "cancelled" from "failed". -/
theorem C6_counterexample :
    exT.Broadcast exEnvCancelSend exM =
      some (.error (.wrap sendFailText .canceled), exT,
        [.encode exM.ToProto, .sendAsync 1 exM.ToProto]) ∧
    Err.wrap sendFailText .canceled ≠ Err.canceled :=
  ⟨rfl, by simp⟩

/-- Claim C6 (amended): cancellation observed by a blocking enqueue is returned
verbatim — never wrapped — by `Broadcast`, `SendTo` and `P2PHandler`,
while any error returned by a network send, the context's cancellation
error included, is wrapped with "failed to send message" by `Broadcast`
and `SendTo`. -/
theorem C6_cancellation_propagation (t : Transport) (env : Env) (m : Msg)
    (pb : HotStuffMsg) (p : Peer)
    (hget : t.peers[0]? = some p)
    (hfull : t.recvCh.length = t.recvChCap) (hdone : env.ctxDone = true) :
    (t.tcpNodeID = p.ID →
      t.Broadcast env m = some (.error .canceled, t, [.encode m.ToProto]) ∧
      t.SendTo env 1 m = some (.error .canceled, t, []) ∧
      t.P2PHandler env (.hotStuffMsg (some pb))
        = some (handlerRes (some .canceled), t)) ∧
    (¬ t.tcpNodeID = p.ID → ∀ e, env.sendResult 0 = some e →
      t.Broadcast env m =
        some (.error (.wrap sendFailText e), t,
          [.encode m.ToProto, .sendAsync p.ID m.ToProto]) ∧
      t.SendTo env 1 m =
        some (.error (.wrap sendFailText e), t,
          [.encode m.ToProto, .sendAsync p.ID m.ToProto])) := by
  have hps : t.peers = p :: t.peers.drop 1 := by
    simpa using drop_eq_cons_of_getElem t.peers 0 p hget
  have hlen1 : 0 < t.peers.length := by
    rcases List.getElem?_eq_some.mp hget with ⟨hlt, _⟩
    exact hlt
  have hne1 : ¬ ((1 : Int) < 1 ∨ (t.peers.length : Int) < 1) := by
    push_neg
    constructor
    · omega
    · exact_mod_cast hlen1
  have hgetn : t.peers[((1 : Int) - 1).toNat]? = some p := hget
  constructor
  · intro hlocal
    have hcs : chanSend t.recvChCap t.recvCh m env.ctxDone = .canceled := by
      simp [chanSend, hfull, hdone]
    refine ⟨?_, ?_, ?_⟩
    · have hstep : broadcastLoop t.tcpNodeID t.recvChCap m.ToProto m env
          t.peers 0 t.recvCh = some (.error .canceled, t.recvCh, []) := by
        rw [hps]
        simp only [broadcastLoop, if_pos hlocal, hcs]
      unfold Transport.Broadcast
      simp only [hstep, Option.map_some']
    · unfold Transport.SendTo
      rw [if_neg hne1, hgetn]
      simp only [Option.getD_some]
      rw [if_pos hlocal, hcs]
    · have hcs2 : chanSend t.recvChCap t.recvCh (ProtoToMsg pb) env.ctxDone
          = .canceled := by
        simp [chanSend, hfull, hdone]
      unfold Transport.P2PHandler
      simp only [hcs2]
  · intro hremote e hfail
    refine ⟨?_, ?_⟩
    · have hstep : broadcastLoop t.tcpNodeID t.recvChCap m.ToProto m env
          t.peers 0 t.recvCh
          = some (.error (.wrap sendFailText e), t.recvCh,
              [.sendAsync p.ID m.ToProto]) := by
        rw [hps]
        simp only [broadcastLoop, if_neg hremote, hfail]
      unfold Transport.Broadcast
      simp only [hstep, Option.map_some']
    · unfold Transport.SendTo
      rw [if_neg hne1, hgetn]
      simp only [Option.getD_some]
      rw [if_neg hremote, hfail]

def exTFullLoc : Transport :=
  { tcpNodeID := 5, peers := exPeersDup, recvCh := List.replicate 16 exM,
    recvChCap := 16 }

theorem C6_witness :
    exTFullLoc.Broadcast exEnvCancel exM
      = some (.error .canceled, exTFullLoc, [.encode exM.ToProto]) ∧
    exTFullLoc.SendTo exEnvCancel 1 exM
      = some (.error .canceled, exTFullLoc, []) ∧
    exTFullLoc.P2PHandler exEnvCancel (.hotStuffMsg (some exM.ToProto))
      = some (handlerRes (some .canceled), exTFullLoc) :=
  (C6_cancellation_propagation exTFullLoc exEnvCancel exM exM.ToProto ⟨5⟩
    (by decide) (by decide) rfl).1 (by decide)

/-- Claim C7: `P2PHandler` is total (no panic in the model: it returns a
value for every request) and fire-and-forget: whenever it returns, the
response payload is absent and the stream-continuation flag is false; an
absent (nil) or wrong-kind payload always yields the invalid-message
error with the transport — hence the inbound queue — unchanged. -/
theorem C7_handler_rejects_invalid (t : Transport) (env : Env)
    (req : P2PReq) :
    (∀ res t2, t.P2PHandler env req = some (res, t2) →
      res.resp = none ∧ res.stream = false) ∧
    ((req = .otherKind ∨ req = .hotStuffMsg none) →
      t.P2PHandler env req =
        some (handlerRes
          (some (.new invalidMsgText)), t)) := by
  constructor
  · intro res t2 h
    unfold Transport.P2PHandler at h
    cases req with
    | otherKind =>
      injection h with h1
      injection h1 with ha hb
      subst ha
      exact ⟨rfl, rfl⟩
    | hotStuffMsg o =>
      cases o with
      | none =>
        injection h with h1
        injection h1 with ha hb
        subst ha
        exact ⟨rfl, rfl⟩
      | some pb =>
        split at h
        · injection h with h1
          injection h1 with ha hb
          subst ha
          exact ⟨rfl, rfl⟩
        · injection h with h1
          injection h1 with ha hb
          subst ha
          exact ⟨rfl, rfl⟩
        · split at h
          · injection h with h1
            injection h1 with ha hb
            subst ha
            exact ⟨rfl, rfl⟩
          · injection h with h1
            injection h1 with ha hb
            subst ha
            exact ⟨rfl, rfl⟩
          · exact Option.noConfusion h
  · rintro (rfl | rfl) <;> rfl

theorem C7_witness :
    exT.P2PHandler exEnvOK .otherKind =
      some (handlerRes
        (some (.new invalidMsgText)), exT) :=
  (C7_handler_rejects_invalid exT exEnvOK .otherKind).2 (Or.inl rfl)

/-- Claim C9: the inbound queue exists from construction on — `newTransport`
creates it empty with the fixed capacity `msgBufferSize = 16` — no
operation ever changes the capacity, the directory or the local identity
(each only ever updates the queue contents of the one channel), and
`ReceiveCh` is always the read handle on that same queue field. -/
theorem C9_single_fixed_queue (tid : PeerID) (ps : List Peer) :
    (newTransport tid ps).recvCh = [] ∧
    (newTransport tid ps).recvChCap = 16 ∧
    msgBufferSize = 16 ∧
    (∀ t : Transport, t.ReceiveCh = t.recvCh) ∧
    (∀ (t : Transport) (env : Env) (m : Msg) r t2 evs,
      t.Broadcast env m = some (r, t2, evs) →
      t2.recvChCap = t.recvChCap ∧ t2.peers = t.peers ∧
        t2.tcpNodeID = t.tcpNodeID) ∧
    (∀ (t : Transport) (env : Env) (id : Int) (m : Msg) r t2 evs,
      t.SendTo env id m = some (r, t2, evs) →
      t2.recvChCap = t.recvChCap ∧ t2.peers = t.peers ∧
        t2.tcpNodeID = t.tcpNodeID) ∧
    (∀ (t : Transport) (env : Env) (req : P2PReq) res t2,
      t.P2PHandler env req = some (res, t2) →
      t2.recvChCap = t.recvChCap ∧ t2.peers = t.peers ∧
        t2.tcpNodeID = t.tcpNodeID) := by
  refine ⟨rfl, rfl, rfl, fun _ => rfl, ?_, ?_, ?_⟩
  · intro t env m r t2 evs h
    have h2 : (broadcastLoop t.tcpNodeID t.recvChCap m.ToProto m env t.peers 0
        t.recvCh).map
        (fun x => (x.1, { t with recvCh := x.2.1 },
          Event.encode m.ToProto :: x.2.2)) = some (r, t2, evs) := h
    rcases Option.map_eq_some'.mp h2 with ⟨a, _, hfa⟩
    cases hfa
    exact ⟨rfl, rfl, rfl⟩
  · intro t env id m r t2 evs h
    simp only [Transport.SendTo] at h
    split at h
    all_goals try split at h
    all_goals try split at h
    all_goals
      first
        | exact Option.noConfusion h
        | (injection h with h1
           injection h1 with ha hb
           injection hb with hb1 hb2
           subst hb1
           exact ⟨rfl, rfl, rfl⟩)
  · intro t env req res t2 h
    unfold Transport.P2PHandler at h
    split at h
    · injection h with h1
      injection h1 with ha hb
      subst hb
      exact ⟨rfl, rfl, rfl⟩
    · injection h with h1
      injection h1 with ha hb
      subst hb
      exact ⟨rfl, rfl, rfl⟩
    · split at h
      · injection h with h1
        injection h1 with ha hb
        subst hb
        exact ⟨rfl, rfl, rfl⟩
      · injection h with h1
        injection h1 with ha hb
        subst hb
        exact ⟨rfl, rfl, rfl⟩
      · exact Option.noConfusion h

theorem C9_witness :
    (newTransport 2 exPeers4).recvCh = [] ∧
    (newTransport 2 exPeers4).recvChCap = 16 ∧
    (({ exT with recvCh := [exM] } : Transport).recvChCap = exT.recvChCap ∧
      ({ exT with recvCh := [exM] } : Transport).peers = exT.peers ∧
      ({ exT with recvCh := [exM] } : Transport).tcpNodeID = exT.tcpNodeID) :=
  ⟨(C9_single_fixed_queue 2 exPeers4).1,
   (C9_single_fixed_queue 2 exPeers4).2.1,
   (C9_single_fixed_queue 2 exPeers4).2.2.2.2.1 exT exEnvOK exM (.ok ())
     { exT with recvCh := [exM] }
     [.encode exM.ToProto, .sendAsync 1 exM.ToProto, .loopback exM,
      .sendAsync 3 exM.ToProto, .sendAsync 4 exM.ToProto]
     rfl⟩
